import Mathlib

/-!
Verification of the hyperio trio backend (src/hyperio/backends/trio.py).

The socket-facing operations of `SocketStream` are loops over an underlying
socket handle.  The handle itself (BaseSocket in base.py, not part of the
sources under inspection) is modelled from the spec: a destructive `recv`
consumes and returns a prefix of the not-yet-consumed incoming byte stream,
a `MSG_PEEK` recv returns such a prefix without consuming it, `recv_into`
returns 0 bytes once the peer has closed ("0 bytes signals peer closed write
side"), and `send` accepts a prefix of the offered buffer and returns its
length.  How many bytes a given call yields is determined by a fragmentation
schedule: one entry per physical read/write, each entry bounding the number
of bytes the transport hands over in that round.  A schedule entry of at
least 1 models the blocking semantics (a read returns at least one byte
whenever data is available).  When a loop needs more rounds than the
schedule provides, the model returns `none` (the run is not determined by
the given schedule); `some` results are fully determined outcomes.

Bytes are modelled as natural numbers; byte strings as `List Nat`.
-/

namespace Hyperio

/-! ### Python-style substring search (bytes.find) -/

/-- The n-byte slice of `l` starting at index `i` (Python `l[i:i+n]`). -/
def listSub (l : List Nat) (i n : Nat) : List Nat := (l.drop i).take n

/-- The pattern `pat` occurs in `l` at index `i`, entirely inside `l`. -/
def occursAt (l pat : List Nat) (i : Nat) : Prop :=
  i + pat.length ≤ l.length ∧ listSub l i pat.length = pat

instance (l pat : List Nat) (i : Nat) : Decidable (occursAt l pat i) :=
  inferInstanceAs (Decidable (i + pat.length ≤ l.length ∧ listSub l i pat.length = pat))

/-- Linear scan for the first occurrence of `pat` in `buf` at an index of at
least `i`, with explicit fuel bounding the number of candidate positions. -/
def findFromAux (buf pat : List Nat) : Nat → Nat → Option Nat
  | _, 0 => none
  | i, fuel + 1 =>
    if occursAt buf pat i then some i
    else findFromAux buf pat (i + 1) fuel

/-- Python `buf.find(pat, start)` (as an `Option` instead of -1): a negative
`start` is interpreted relative to the end of `buf` and clamped at 0, exactly
as Python slice indices are. -/
def pyFindFrom (buf pat : List Nat) (start : Int) : Option Nat :=
  findFromAux buf pat
    (if start < 0 then ((buf.length : Int) + start).toNat else start.toNat)
    (buf.length + 1 - (if start < 0 then ((buf.length : Int) + start).toNat else start.toNat))

/-! ### SocketStream.receive_until (trio.py lines 161-177)

State per loop round: the accumulated peeked buffer `buf`, the search
offset `offset` (a Python int, so it may go negative), and the number of
bytes destructively consumed from the stream so far, `pos`.  Each round
peeks `min (max_size - len(buf)) c` fresh bytes, where `c` is the round's
fragmentation-schedule entry, searches `buf` from `offset`, and either
consumes `index + 1` bytes and returns `buf[:index]`, or consumes the
peeked bytes and advances `offset` by `len(data) - len(delimiter) + 1`. -/

inductive RUOutcome
  | returned (ret : List Nat)
  | delimiterNotFound (bufBytes : List Nat)
deriving DecidableEq

def receiveUntilAux (stream delim : List Nat) (maxSize : Nat) :
    List Nat → List Nat → Int → Nat → Option (RUOutcome × Nat)
  | [], buf, _, pos =>
      if maxSize ≤ buf.length then some (.delimiterNotFound buf, pos) else none
  | c :: rest, buf, offset, pos =>
      if maxSize ≤ buf.length then some (.delimiterNotFound buf, pos)
      else
        match pyFindFrom (buf ++ (stream.drop pos).take (min (maxSize - buf.length) c))
            delim offset with
        | some index =>
            some (.returned
                ((buf ++ (stream.drop pos).take (min (maxSize - buf.length) c)).take index),
              pos + min (index + 1) (stream.length - pos))
        | none =>
            receiveUntilAux stream delim maxSize rest
              (buf ++ (stream.drop pos).take (min (maxSize - buf.length) c))
              (offset + (((stream.drop pos).take (min (maxSize - buf.length) c)).length : Int)
                - (delim.length : Int) + 1)
              (pos + ((stream.drop pos).take (min (maxSize - buf.length) c)).length)

/-- SocketStream.receive_until run against incoming bytes `stream` with peek
fragmentation schedule `sched`.  Returns the outcome (returned bytes or the
DelimiterNotFound payload) together with the total number of bytes
destructively consumed from the stream. -/
def receive_until (stream delim : List Nat) (maxSize : Nat) (sched : List Nat) :
    Option (RUOutcome × Nat) :=
  receiveUntilAux stream delim maxSize sched [] 0 0

/-- The bytes outcome of receive_until, ignoring how much was consumed. -/
def receiveUntilRet (stream delim : List Nat) (maxSize : Nat) (sched : List Nat) :
    Option RUOutcome :=
  (receive_until stream delim maxSize sched).map Prod.fst

/-! ### SocketStream.receive_exactly (trio.py lines 151-159)

The loop keeps calling recv_into with the remaining count while it is
positive; a round's chunk is `min c nbytes` bytes (schedule entry `c`),
further capped by what remains of the incoming stream - at EOF a chunk is
empty, exactly like recv_into returning 0. -/

def receiveExactlyAux (stream : List Nat) : List Nat → List Nat → Nat → Nat → Option (List Nat)
  | [], acc, _, n => if n = 0 then some acc else none
  | c :: rest, acc, pos, n =>
      if n = 0 then some acc
      else
        receiveExactlyAux stream rest (acc ++ (stream.drop pos).take (min c n))
          (pos + ((stream.drop pos).take (min c n)).length)
          (n - ((stream.drop pos).take (min c n)).length)

/-- SocketStream.receive_exactly run against incoming bytes `stream` with
read fragmentation schedule `sched`.  `some bytes` is a completed call;
`none` means the call is still looping after all `sched.length` reads. -/
def receive_exactly (stream : List Nat) (nbytes : Nat) (sched : List Nat) : Option (List Nat) :=
  receiveExactlyAux stream sched [] 0 nbytes

/-! ### SocketStream.send_all (trio.py lines 179-182)

The code keeps a remaining count `to_send` but offers the whole of `data`
to every send call; the handle accepts `min c (len data)` bytes (its
schedule entry `c`), i.e. that prefix of what was offered.  `to_send` is a
Python int, so it may go negative when a late round accepts more bytes than
remain outstanding.  The result is the concatenation of everything the
handle accepted, or `none` if the schedule ran out first. -/

def sendAllAux (data : List Nat) : List Nat → Int → Option (List Nat)
  | [], toSend => if toSend ≤ 0 then some [] else none
  | c :: rest, toSend =>
      if toSend ≤ 0 then some []
      else
        (sendAllAux data rest (toSend - (min c data.length : Nat))).map
          (fun accepted => data.take (min c data.length) ++ accepted)

/-- SocketStream.send_all: the bytes the handle accepts, in order, when the
handle accepts per-call byte counts according to `sched`. -/
def send_all (data : List Nat) (sched : List Nat) : Option (List Nat) :=
  sendAllAux data sched (data.length : Int)

/-! ### Scoped-acquisition helpers (trio.py lines 200-209 and 235-313)

An async context manager produced by asynccontextmanager/async_generator
runs the statements after its yield point only when the consuming block
exits without an exception; statements in a `finally` run on every exit.
Each helper is recorded as the actions it performs after the yield point
and the actions of its finally block; `closeCount` counts how often the
socket handle is closed on each kind of exit. -/

inductive ExitPath
  | normal
  | raised
deriving DecidableEq

inductive Action
  | closeSock
  | otherStep
deriving DecidableEq

structure ScopedHelper where
  afterYield : List Action
  finallyActs : List Action

def closeCount (h : ScopedHelper) : ExitPath → Nat
  | .normal => h.afterYield.count .closeSock + h.finallyActs.count .closeSock
  | .raised => h.finallyActs.count .closeSock

/-- connect_tcp (lines 235-255): `try: ... yield ... finally: sock.close()`. -/
def connect_tcp : ScopedHelper := ⟨[], [.closeSock]⟩

/-- connect_unix (lines 258-266): close in `finally`. -/
def connect_unix : ScopedHelper := ⟨[], [.closeSock]⟩

/-- create_tcp_server (lines 269-279): close in `finally`. -/
def create_tcp_server : ScopedHelper := ⟨[], [.closeSock]⟩

/-- create_unix_server (lines 282-295): close in `finally`. -/
def create_unix_server : ScopedHelper := ⟨[], [.closeSock]⟩

/-- create_udp_socket (lines 298-313): close in `finally`. -/
def create_udp_socket : ScopedHelper := ⟨[], [.closeSock]⟩

/-- SocketStreamServer.accept (lines 200-209): `sock.close()` is the plain
statement after `yield_(stream)`, with no try/finally around it. -/
def accept : ScopedHelper := ⟨[.closeSock], []⟩

/-! ### Task groups (trio.py lines 69-97)

Child application failures are abstracted as a list of exception
identifiers.  The trio nursery (external scheduler, modelled) re-raises a
single child failure as-is and wraps two or more into a trio.MultiError;
create_task_group catches exactly trio.MultiError and re-raises
ExceptionGroup(exc.exceptions). -/

inductive NurseryRaise
  | nothing
  | single (e : Nat)
  | multiError (excs : List Nat)
deriving DecidableEq

/-- Behavior of trio.open_nursery at block exit, given the child failures
(modelled: trio collapses a one-element MultiError to the bare exception). -/
def nurseryOutcome : List Nat → NurseryRaise
  | [] => .nothing
  | [e] => .single e
  | es => .multiError es

inductive TaskGroupRaise
  | nothing
  | original (e : Nat)
  | exceptionGroup (excs : List Nat)
deriving DecidableEq

/-- create_task_group (lines 88-97): `except trio.MultiError as exc: raise
ExceptionGroup(exc.exceptions) from None`; anything else propagates. -/
def create_task_group (childFailures : List Nat) : TaskGroupRaise :=
  match nurseryOutcome childFailures with
  | .nothing => .nothing
  | .single e => .original e
  | .multiError excs => .exceptionGroup excs

/-- TaskGroup state: the `_active` flag and the tasks handed to
`nursery.start_soon` so far (by identifier, in spawn order). -/
structure TaskGroupState where
  active : Bool
  scheduled : List Nat
deriving DecidableEq

/-- TaskGroup.spawn (lines 81-85): raise RuntimeError when inactive,
otherwise start_soon the task. -/
def spawn (tg : TaskGroupState) (task : Nat) : Except String TaskGroupState :=
  if tg.active = false then
    .error "This task group is not active; no new tasks can be spawned."
  else
    .ok { tg with scheduled := tg.scheduled ++ [task] }

/-- End of the create_task_group body (line 95): `tg._active = False`. -/
def task_group_block_exit (tg : TaskGroupState) : TaskGroupState :=
  { tg with active := false }

/-! ### fail_after (trio.py lines 55-62) -/

/-- Outcome of the trio.fail_after-wrapped block (modelled scheduler
behavior): either the enclosed operation completed with a value, or the
deadline fired and trio raised TooSlowError carrying a traceback. -/
inductive TrioFailAfterOutcome (α : Type)
  | completed (v : α)
  | tooSlowError (tb : Nat)
deriving DecidableEq

/-- Result surfaced by hyperio's fail_after to its caller. -/
inductive FailAfterOutcome (α : Type)
  | completed (v : α)
  | timeoutError (tb : Nat)
deriving DecidableEq

/-- fail_after (lines 55-62): `except trio.TooSlowError as exc: raise
TimeoutError().with_traceback(exc.__traceback__) from None`. -/
def fail_after (α : Type) : TrioFailAfterOutcome α → FailAfterOutcome α
  | .completed v => .completed v
  | .tooSlowError tb => .timeoutError tb

/-! ### wrap_as_awaitable (trio.py lines 18-33, 40-45, 72-75) -/

/-- The module-level dummy awaitable; its Python `__await__` body is
`if False: yield`, so awaiting it yields zero times. -/
inductive Awaitable
  | dummy_awaitable
deriving DecidableEq

/-- The suspension points produced by awaiting: none for the dummy. -/
def awaitYields : Awaitable → List Unit
  | .dummy_awaitable => []

/-- A trio cancel scope, tracking how many times the underlying synchronous
`cancel` has been invoked. -/
structure TrioCancelScope where
  cancelCalls : Nat
deriving DecidableEq

/-- The underlying synchronous trio `cancel_scope.cancel`. -/
def trioCancel (cs : TrioCancelScope) : TrioCancelScope :=
  { cancelCalls := cs.cancelCalls + 1 }

/-- wrap_as_awaitable (lines 27-33): the wrapper calls `func(*args)` at call
time and returns the shared dummy awaitable. -/
def wrap_as_awaitable (func : TrioCancelScope → TrioCancelScope) (cs : TrioCancelScope) :
    TrioCancelScope × Awaitable :=
  (func cs, .dummy_awaitable)

/-- The wrapped cancel installed by open_cancel_scope (line 44) and
TaskGroup.__init__ (line 75). -/
def wrappedCancel (cs : TrioCancelScope) : TrioCancelScope × Awaitable :=
  wrap_as_awaitable trioCancel cs

/-! ## Lemmas about the substring search -/

theorem findFromAux_none (buf pat : List Nat) :
    ∀ (fuel i : Nat), (∀ j, i ≤ j → ¬ occursAt buf pat j) →
      findFromAux buf pat i fuel = none := by
  intro fuel
  induction fuel with
  | zero => intro i _; rfl
  | succ fuel ih =>
      intro i h
      simp only [findFromAux]
      rw [if_neg (h i le_rfl)]
      exact ih (i + 1) fun j hj => h j (by omega)

theorem findFromAux_some (buf pat : List Nat) (j : Nat) :
    ∀ (fuel i : Nat), occursAt buf pat j → i ≤ j → j < i + fuel →
      (∀ k, i ≤ k → k < j → ¬ occursAt buf pat k) →
      findFromAux buf pat i fuel = some j := by
  intro fuel
  induction fuel with
  | zero => intro i _ h1 h2 _; omega
  | succ fuel ih =>
      intro i hj h1 h2 hmin
      simp only [findFromAux]
      by_cases hci : occursAt buf pat i
      · have hij : i = j := by
          by_contra hne
          exact hmin i le_rfl (by omega) hci
        rw [if_pos hci, hij]
      · rw [if_neg hci]
        have hij : i ≠ j := fun e => hci (e ▸ hj)
        exact ih (i + 1) hj (by omega) (by omega)
          (fun k hk1 hk2 => hmin k (by omega) hk2)

theorem pyFindFrom_none (buf pat : List Nat) (start : Int)
    (h : ∀ j, ¬ occursAt buf pat j) : pyFindFrom buf pat start = none := by
  unfold pyFindFrom
  exact findFromAux_none buf pat _ _ (fun j _ => h j)

theorem pyFindFrom_some (buf pat : List Nat) (start : Int) (j : Nat)
    (h0 : 0 ≤ start) (hsj : start ≤ (j : Int))
    (hj : occursAt buf pat j)
    (hmin : ∀ k, k < j → ¬ occursAt buf pat k) :
    pyFindFrom buf pat start = some j := by
  unfold pyFindFrom
  rw [if_neg (by omega : ¬ start < 0)]
  have hjlen : j ≤ buf.length := by
    have := hj.1; omega
  exact findFromAux_some buf pat j _ _ hj (by omega) (by omega)
    (fun k _ hk2 => hmin k hk2)

/-! ## Prefix lemmas -/

theorem listSub_take_eq (l : List Nat) (m i n : Nat) (h : i + n ≤ m) :
    listSub (l.take m) i n = listSub l i n := by
  unfold listSub
  rw [List.drop_take m i l, List.take_take]
  congr 1
  omega

theorem occursAt_take_iff (l pat : List Nat) (m i : Nat) (hm : m ≤ l.length) :
    occursAt (l.take m) pat i ↔ i + pat.length ≤ m ∧ occursAt l pat i := by
  unfold occursAt
  rw [List.length_take]
  constructor
  · rintro ⟨h1, h2⟩
    have him : i + pat.length ≤ m := by omega
    exact ⟨him, by omega, by rw [← listSub_take_eq l m i pat.length him]; exact h2⟩
  · rintro ⟨him, _, h2⟩
    exact ⟨by omega, by rw [listSub_take_eq l m i pat.length him]; exact h2⟩

theorem take_min_length (l : List Nat) (k : Nat) :
    l.take (min k l.length) = l.take k := by
  rw [← List.take_take, List.take_length]

/-- Appending a fresh peek to an already-consumed prefix gives the longer
prefix. -/
theorem take_append_peek (l : List Nat) (pos k : Nat) :
    l.take pos ++ (l.drop pos).take k
      = l.take (pos + ((l.drop pos).take k).length) := by
  rw [List.length_take, List.length_drop, List.take_add]
  congr 1
  rw [← List.length_drop pos l, take_min_length (l.drop pos) k]

/-! ## Unfolding lemmas for receiveUntilAux -/

theorem receiveUntilAux_stop (stream delim : List Nat) (maxSize : Nat)
    (sched buf : List Nat) (offset : Int) (pos : Nat) (hg : maxSize ≤ buf.length) :
    receiveUntilAux stream delim maxSize sched buf offset pos
      = some (.delimiterNotFound buf, pos) := by
  cases sched <;> simp only [receiveUntilAux] <;> rw [if_pos hg]

theorem receiveUntilAux_cons_found (stream delim : List Nat) (maxSize c : Nat)
    (rest buf : List Nat) (offset : Int) (pos index : Nat)
    (hg : buf.length < maxSize)
    (hfind : pyFindFrom (buf ++ (stream.drop pos).take (min (maxSize - buf.length) c))
        delim offset = some index) :
    receiveUntilAux stream delim maxSize (c :: rest) buf offset pos
      = some (.returned
            ((buf ++ (stream.drop pos).take (min (maxSize - buf.length) c)).take index),
          pos + min (index + 1) (stream.length - pos)) := by
  simp only [receiveUntilAux]
  rw [if_neg (by omega), hfind]

theorem receiveUntilAux_cons_notFound (stream delim : List Nat) (maxSize c : Nat)
    (rest buf : List Nat) (offset : Int) (pos : Nat)
    (hg : buf.length < maxSize)
    (hfind : pyFindFrom (buf ++ (stream.drop pos).take (min (maxSize - buf.length) c))
        delim offset = none) :
    receiveUntilAux stream delim maxSize (c :: rest) buf offset pos
      = receiveUntilAux stream delim maxSize rest
          (buf ++ (stream.drop pos).take (min (maxSize - buf.length) c))
          (offset + (((stream.drop pos).take (min (maxSize - buf.length) c)).length : Int)
            - (delim.length : Int) + 1)
          (pos + ((stream.drop pos).take (min (maxSize - buf.length) c)).length) := by
  simp only [receiveUntilAux]
  rw [if_neg (by omega), hfind]

/-! ## The receive_until loop: main inductions -/

/-- When the first delimiter occurrence ends within max_size and the
delimiter has length at most 2, every nonempty-read fragmentation makes the
loop return the bytes strictly before that occurrence. -/
theorem receiveUntilAux_finds (stream delim : List Nat) (maxSize p : Nat)
    (hds1 : 1 ≤ delim.length) (hds2 : delim.length ≤ 2)
    (hocc : occursAt stream delim p)
    (hmin : ∀ i, i < p → ¬ occursAt stream delim i)
    (hsize : p + delim.length ≤ maxSize) :
    ∀ (sched : List Nat) (pos : Nat) (offset : Int),
      (∀ c ∈ sched, 1 ≤ c) →
      p + delim.length ≤ pos + sched.length →
      pos < p + delim.length →
      0 ≤ offset →
      offset ≤ max 0 ((pos : Int) - (delim.length : Int) + 1) →
      ∃ n, receiveUntilAux stream delim maxSize sched (stream.take pos) offset pos
        = some (.returned (stream.take p), n) := by
  have hplen : p + delim.length ≤ stream.length := hocc.1
  intro sched
  induction sched with
  | nil =>
      intro pos offset _ hlen hpos _ _
      simp only [List.length_nil] at hlen
      omega
  | cons c rest ih =>
      intro pos offset hc hlen hpos hoff0 hoffmax
      have hposlen : pos < stream.length := by omega
      have hposmax : pos < maxSize := by omega
      have hbuflen : (stream.take pos).length = pos := by
        rw [List.length_take]; omega
      have hg : (stream.take pos).length < maxSize := by omega
      set D := (stream.drop pos).take (min (maxSize - (stream.take pos).length) c)
        with hDdef
      have hDlen : D.length = min (min (maxSize - pos) c) (stream.length - pos) := by
        rw [hDdef, hbuflen, List.length_take, List.length_drop]
      have hc1 : 1 ≤ c := hc c (List.mem_cons_self c rest)
      have hD1 : 1 ≤ D.length := by omega
      have hbuf2 : stream.take pos ++ D = stream.take (pos + D.length) :=
        take_append_peek stream pos _
      have hpos2len : pos + D.length ≤ stream.length := by omega
      by_cases hfound : p + delim.length ≤ pos + D.length
      · have hoccbuf : occursAt (stream.take (pos + D.length)) delim p := by
          rw [occursAt_take_iff stream delim _ p hpos2len]
          exact ⟨hfound, hocc⟩
        have hminbuf : ∀ k, k < p → ¬ occursAt (stream.take (pos + D.length)) delim k := by
          intro k hk hkocc
          rw [occursAt_take_iff stream delim _ k hpos2len] at hkocc
          exact hmin k hk hkocc.2
        have hsj : offset ≤ (p : Int) := by omega
        have hfind : pyFindFrom (stream.take pos ++ D) delim offset = some p := by
          rw [hbuf2]
          exact pyFindFrom_some _ _ _ p hoff0 hsj hoccbuf hminbuf
        rw [receiveUntilAux_cons_found stream delim maxSize c rest (stream.take pos)
          offset pos p hg hfind]
        refine ⟨pos + min (p + 1) (stream.length - pos), ?_⟩
        rw [← hDdef, hbuf2, List.take_take, min_eq_left (by omega : p ≤ pos + D.length)]
      · have hnoocc : ∀ j, ¬ occursAt (stream.take (pos + D.length)) delim j := by
          intro j hj
          rw [occursAt_take_iff stream delim _ j hpos2len] at hj
          obtain ⟨hjlen, hjocc⟩ := hj
          exact hmin j (by omega) hjocc
        have hfind : pyFindFrom (stream.take pos ++ D) delim offset = none := by
          rw [hbuf2]
          exact pyFindFrom_none _ _ _ hnoocc
        rw [receiveUntilAux_cons_notFound stream delim maxSize c rest (stream.take pos)
          offset pos hg hfind]
        rw [← hDdef, hbuf2]
        exact ih (pos + D.length) (offset + (D.length : Int) - (delim.length : Int) + 1)
          (fun x hx => hc x (List.mem_cons_of_mem c hx))
          (by simp only [List.length_cons] at hlen; omega)
          (by omega)
          (by omega)
          (by omega)

/-- When the delimiter never occurs inside the first max_size bytes and at
least max_size bytes arrive, the loop fills the peek buffer to exactly
max_size bytes and raises DelimiterNotFound with that buffer. -/
theorem receiveUntilAux_notFoundAll (stream delim : List Nat) (maxSize : Nat)
    (habs : ∀ i, ¬ occursAt (stream.take maxSize) delim i)
    (hstream : maxSize ≤ stream.length) :
    ∀ (sched : List Nat) (offset : Int) (pos : Nat),
      (∀ c ∈ sched, 1 ≤ c) →
      maxSize ≤ pos + sched.length →
      pos ≤ maxSize →
      receiveUntilAux stream delim maxSize sched (stream.take pos) offset pos
        = some (.delimiterNotFound (stream.take maxSize), maxSize) := by
  intro sched
  induction sched with
  | nil =>
      intro offset pos _ hlen hpos
      have hpm : pos = maxSize := by simp only [List.length_nil] at hlen; omega
      subst hpm
      exact receiveUntilAux_stop stream delim pos [] (stream.take pos) offset pos
        (by rw [List.length_take]; omega)
  | cons c rest ih =>
      intro offset pos hc hlen hpos
      by_cases hfull : maxSize ≤ pos
      · have hpm : pos = maxSize := by omega
        subst hpm
        exact receiveUntilAux_stop stream delim pos (c :: rest) (stream.take pos) offset pos
          (by rw [List.length_take]; omega)
      · have hposmax : pos < maxSize := by omega
        have hposlen : pos < stream.length := by omega
        have hbuflen : (stream.take pos).length = pos := by
          rw [List.length_take]; omega
        have hg : (stream.take pos).length < maxSize := by omega
        set D := (stream.drop pos).take (min (maxSize - (stream.take pos).length) c)
          with hDdef
        have hDlen : D.length = min (min (maxSize - pos) c) (stream.length - pos) := by
          rw [hDdef, hbuflen, List.length_take, List.length_drop]
        have hc1 : 1 ≤ c := hc c (List.mem_cons_self c rest)
        have hD1 : 1 ≤ D.length := by omega
        have hpos2 : pos + D.length ≤ maxSize := by omega
        have hpos2len : pos + D.length ≤ stream.length := by omega
        have hbuf2 : stream.take pos ++ D = stream.take (pos + D.length) :=
          take_append_peek stream pos _
        have hnoocc : ∀ j, ¬ occursAt (stream.take (pos + D.length)) delim j := by
          intro j hj
          rw [occursAt_take_iff stream delim _ j hpos2len] at hj
          obtain ⟨hjl, hjocc⟩ := hj
          apply habs j
          rw [occursAt_take_iff stream delim _ j hstream]
          exact ⟨by omega, hjocc⟩
        have hfind : pyFindFrom (stream.take pos ++ D) delim offset = none := by
          rw [hbuf2]
          exact pyFindFrom_none _ _ _ hnoocc
        rw [receiveUntilAux_cons_notFound stream delim maxSize c rest (stream.take pos)
          offset pos hg hfind]
        rw [← hDdef, hbuf2]
        exact ih (offset + (D.length : Int) - (delim.length : Int) + 1) (pos + D.length)
          (fun x hx => hc x (List.mem_cons_of_mem c hx))
          (by simp only [List.length_cons] at hlen; omega)
          hpos2

/-! ## The receive_exactly loop never completes once the stream is short -/

theorem receiveExactlyAux_none (stream : List Nat) :
    ∀ (sched acc : List Nat) (pos n : Nat),
      stream.length < pos + n → 0 < n →
      receiveExactlyAux stream sched acc pos n = none := by
  intro sched
  induction sched with
  | nil =>
      intro acc pos n h hn
      simp only [receiveExactlyAux]
      rw [if_neg (by omega : ¬ n = 0)]
  | cons c rest ih =>
      intro acc pos n h hn
      simp only [receiveExactlyAux]
      rw [if_neg (by omega : ¬ n = 0)]
      have hlen : ((stream.drop pos).take (min c n)).length
          = min (min c n) (stream.length - pos) := by
        rw [List.length_take, List.length_drop]
      exact ih _ _ _ (by omega) (by omega)

/-! ## Claim theorems -/

/-- Claim C1 (code bug): with a handle that accepts one byte per write,
send_all of the two distinct bytes 97, 98 delivers 97 twice: the loop
re-offers the whole buffer after a partial write instead of the unsent
tail, so the bytes accepted by the handle are not the bytes of data. -/
theorem send_all_resends_from_start :
    send_all [97, 98] [1, 1] = some [97, 97] ∧ [97, 97] ≠ [97, 98] := by
  decide

/-- Claim C2 (code bug): with delimiter of two bytes found at index 1 of a
fully available stream, receive_until consumes index + 1 = 2 bytes instead
of the 3 bytes that run up through and including the entire delimiter; the
delimiter's last byte is left unconsumed on the socket. -/
theorem receive_until_consumes_short :
    receive_until [0, 1, 2, 3] [1, 2] 10 [10] = some (.returned [0], 2)
      ∧ (2 : Nat) ≠ 1 + 2 := by
  decide

/-- Claim C3 (code bug): with a stream that delivers one byte and then
reports closure (every further read yields zero bytes), receive_exactly 2
never completes, no matter how many reads are scheduled: the remaining
count never decreases once reads return empty, so the call neither returns
nor fails. -/
theorem receive_exactly_hangs_on_early_close (sched : List Nat) :
    receive_exactly [5] 2 sched = none :=
  receiveExactlyAux_none [5] sched [] 0 2 (by decide) (by decide)

/-- Claim C4 (code bug): the five try/finally helpers close the handle
exactly once on both exit paths, but SocketStreamServer.accept closes zero
times when the consuming block raises, because its close is a plain
statement after the yield with no try/finally. -/
theorem scoped_helpers_close_on_every_path :
    closeCount accept .raised = 0
      ∧ closeCount accept .normal = 1
      ∧ closeCount connect_tcp .normal = 1 ∧ closeCount connect_tcp .raised = 1
      ∧ closeCount connect_unix .normal = 1 ∧ closeCount connect_unix .raised = 1
      ∧ closeCount create_tcp_server .normal = 1 ∧ closeCount create_tcp_server .raised = 1
      ∧ closeCount create_unix_server .normal = 1 ∧ closeCount create_unix_server .raised = 1
      ∧ closeCount create_udp_socket .normal = 1 ∧ closeCount create_udp_socket .raised = 1 := by
  decide

/-- Claim C5 counterexample: one logical stream, two fragmentations,
different outcomes.  The three-byte delimiter occurs at index 0 (zero bytes
precede it, and it ends within max_size = 3), yet with all bytes peeked at
once receive_until returns, while fragmented into three one-byte reads the
cumulative offset update drives the Python find start negative (hence
end-relative), the straddling occurrence is skipped, and the call raises
DelimiterNotFound instead. -/
theorem receive_until_fragmentation_counterexample :
    receive_until [7, 7, 7] [7, 7, 7] 3 [3] = some (.returned [], 1)
      ∧ receive_until [7, 7, 7] [7, 7, 7] 3 [1, 1, 1]
          = some (.delimiterNotFound [7, 7, 7], 3)
      ∧ occursAt [7, 7, 7] [7, 7, 7] 0 := by
  decide

/-- Claim C5 (amended): for delimiters of length 1 or 2 whose first
occurrence ends within max_size bytes, receive_until returns the bytes
strictly before the first occurrence under every fragmentation of the
stream into nonempty physical reads. -/
theorem receive_until_fragmentation_independent
    (stream delim : List Nat) (maxSize p : Nat) (sched : List Nat)
    (hds1 : 1 ≤ delim.length) (hds2 : delim.length ≤ 2)
    (hocc : occursAt stream delim p)
    (hmin : ∀ i, i < p → ¬ occursAt stream delim i)
    (hsize : p + delim.length ≤ maxSize)
    (hsched : ∀ c ∈ sched, 1 ≤ c)
    (hlen : maxSize ≤ sched.length) :
    receiveUntilRet stream delim maxSize sched = some (.returned (stream.take p)) := by
  obtain ⟨n, hn⟩ :=
    receiveUntilAux_finds stream delim maxSize p hds1 hds2 hocc hmin hsize sched 0 0
      hsched (by omega) (by omega) le_rfl (le_max_left _ _)
  simp only [List.take_zero] at hn
  simp only [receiveUntilRet, receive_until, hn]
  rfl

/-- Claim C5 witness: delimiter 10 after the bytes of PING, max_size 8,
fragmented into one-byte reads. -/
theorem receive_until_fragmentation_independent_witness :
    receiveUntilRet [80, 73, 78, 71, 10] [10] 8 [1, 1, 1, 1, 1, 1, 1, 1]
      = some (.returned [80, 73, 78, 71]) := by
  have h := receive_until_fragmentation_independent [80, 73, 78, 71, 10] [10] 8 4
    [1, 1, 1, 1, 1, 1, 1, 1] (by decide) (by decide) (by decide)
    (by decide) (by decide) (by decide) (by decide)
  simpa using h

/-- Claim C6: when the delimiter does not occur within the first max_size
bytes of the incoming stream and max_size bytes do arrive, receive_until
raises DelimiterNotFound carrying exactly the first max_size bytes as the
accumulated data, whose length is at most max_size. -/
theorem receive_until_not_found_error
    (stream delim : List Nat) (maxSize : Nat) (sched : List Nat)
    (hds : 1 ≤ delim.length)
    (habs : ∀ i, i < maxSize → ¬ occursAt (stream.take maxSize) delim i)
    (hstream : maxSize ≤ stream.length)
    (hsched : ∀ c ∈ sched, 1 ≤ c)
    (hlen : maxSize ≤ sched.length) :
    receive_until stream delim maxSize sched
        = some (.delimiterNotFound (stream.take maxSize), maxSize)
      ∧ (stream.take maxSize).length ≤ maxSize := by
  have habsAll : ∀ i, ¬ occursAt (stream.take maxSize) delim i := by
    intro i hi
    have hil := hi.1
    rw [List.length_take] at hil
    exact habs i (by omega) hi
  constructor
  · have h := receiveUntilAux_notFoundAll stream delim maxSize habsAll hstream sched 0 0
      hsched (by omega) (by omega)
    simpa only [List.take_zero, receive_until] using h
  · rw [List.length_take]; omega

/-- Claim C6 witness: the spec's own example, delimiter newline, max_size 5,
input abcdef, fragmented into one-byte reads: the error carries abcde. -/
theorem receive_until_not_found_error_witness :
    receive_until [97, 98, 99, 100, 101, 102] [10] 5 [1, 1, 1, 1, 1]
      = some (.delimiterNotFound [97, 98, 99, 100, 101], 5) := by
  have h := receive_until_not_found_error [97, 98, 99, 100, 101, 102] [10] 5
    [1, 1, 1, 1, 1] (by decide) (by decide) (by decide) (by decide) (by decide)
  simpa using h.1

/-- Claim C7: at task group exit, two or more failing children surface a
single ExceptionGroup carrying exactly the original errors, and exactly one
failing child surfaces its original error unwrapped. -/
theorem task_group_error_aggregation (fails : List Nat) :
    (2 ≤ fails.length → create_task_group fails = .exceptionGroup fails)
      ∧ (∀ e, fails = [e] → create_task_group fails = .original e) := by
  constructor
  · intro h
    match fails, h with
    | a :: b :: rest, _ => rfl
  · rintro e rfl
    rfl

/-- Claim C7 witness: two failing children 3 and 5 surface as the aggregate
with both; a lone failing child 7 surfaces unwrapped. -/
theorem task_group_error_aggregation_witness :
    create_task_group [3, 5] = .exceptionGroup [3, 5]
      ∧ create_task_group [7] = .original 7 :=
  ⟨(task_group_error_aggregation [3, 5]).1 (by decide),
   (task_group_error_aggregation [7]).2 7 rfl⟩

/-- Claim C8: spawn after the group's defining block has exited (active set
to false) always raises the inactive-group RuntimeError and schedules
nothing; while the block is active, spawn schedules the task without
error. -/
theorem spawn_inactive_raises (tg : TaskGroupState) (task : Nat) :
    spawn (task_group_block_exit tg) task
        = .error "This task group is not active; no new tasks can be spawned."
      ∧ (tg.active = true →
          spawn tg task = .ok { active := true, scheduled := tg.scheduled ++ [task] }) := by
  constructor
  · rfl
  · intro h
    obtain ⟨a, s⟩ := tg
    simp only at h
    subst h
    rfl

/-- Claim C8 witness: an active empty group: spawning task 9 after block
exit errors; spawning while active schedules 9. -/
theorem spawn_inactive_raises_witness :
    spawn (task_group_block_exit ⟨true, []⟩) 9
        = .error "This task group is not active; no new tasks can be spawned."
      ∧ spawn ⟨true, []⟩ 9 = .ok ⟨true, [9]⟩ :=
  ⟨(spawn_inactive_raises ⟨true, []⟩ 9).1, (spawn_inactive_raises ⟨true, []⟩ 9).2 rfl⟩

/-- Claim C9: when the trio deadline fires, fail_after surfaces the
normalized TimeoutError carrying the original traceback, never the enclosed
operation's own completion value. -/
theorem fail_after_normalizes_timeout (tb : Nat) :
    fail_after Nat (.tooSlowError tb) = .timeoutError tb
      ∧ ∀ v : Nat, fail_after Nat (.tooSlowError tb) ≠ .completed v := by
  exact ⟨rfl, fun v h => by cases h⟩

/-- Claim C9 witness at traceback 3 and candidate value 0. -/
theorem fail_after_normalizes_timeout_witness :
    fail_after Nat (.tooSlowError 3) = .timeoutError 3
      ∧ fail_after Nat (.tooSlowError 3) ≠ .completed 0 :=
  ⟨(fail_after_normalizes_timeout 3).1, (fail_after_normalizes_timeout 3).2 0⟩

/-- Claim C10: the wrapped cancel invokes the underlying synchronous cancel
exactly once at call time — before and independently of any awaiting — and
returns the shared dummy awaitable, whose await completes immediately with
zero yields. -/
theorem wrapped_cancel_sync_effect (cs : TrioCancelScope) :
    (wrappedCancel cs).1.cancelCalls = cs.cancelCalls + 1
      ∧ (wrappedCancel cs).2 = .dummy_awaitable
      ∧ awaitYields (wrappedCancel cs).2 = [] :=
  ⟨rfl, rfl, rfl⟩

end Hyperio
